import Mathlib

/-!
Verification development for `src/app/create_icon.py` (Amirror).

The script reads one source PNG, builds a square 1024×1024 RGBA canvas by
uniform scale-to-fill and center crop (`create_square_icon`), writes the ten
mandated macOS iconset variants (`generate_iconset`), compiles them with the
external `iconutil` tool (`create_icns`), and cleans up on success (`main`).

Modelling conventions:
* Images are shallow records `PILImage` (width, height, mode string, pixel
  function).  Pixels are RGBA quadruples of naturals.
* Python's float expression `int(width * (size / min(w, h)))` is modelled
  faithfully by `new_width`/`new_height`: IEEE-754 binary64 values are pairs
  `mant * 2^exp` with a 53-bit mantissa, the quotient `size / min(w, h)` is
  rounded to the nearest double (round half to even), the product is
  re-rounded, and `int()` truncates — exactly the two roundings CPython
  performs.  (Only the normal range is modelled; the script's quantities are
  far from the subnormal and overflow regimes.)  The exact-rational
  idealization `newWidthExact`/`newHeightExact` (a plain floor) is kept for
  the canvas embedding; `new_width_exact` proves the two models coincide
  whenever the scale and the scaled dimensions are exactly representable,
  and the properties proved about `create_square_icon` below either do not
  depend on the resized values at all or lie in that regime.
* Python's floor division `//` on possibly-negative ints is ℤ division
  (Lean's `Int` division is Euclidean, which coincides with floor division
  for the positive divisor 2).
* Filesystem activity is modelled as a trace of `FSEvent`s; the external
  compiler's outcome (`subprocess.run` exit status or a raised exception) is
  an explicit `CompilerOutcome` input.
-/

/-- An RGBA pixel: red, green, blue, alpha channel values. -/
abbrev Pixel := ℕ × ℕ × ℕ × ℕ

/-- Shallow model of a PIL image: dimensions, mode string and pixel data.
Pixel data is total; only coordinates below the dimensions are meaningful. -/
structure PILImage where
  width : ℕ
  height : ℕ
  mode : String
  px : ℕ → ℕ → Pixel

/-- Model of PIL `img.convert("RGBA")` as used here: the size and the color
channels are kept; a source mode without an alpha channel gets a fully opaque
alpha (255).  (Modes other than RGBA are treated as alpha-less, which is the
only distinction `create_icon.py` makes.) -/
def PILImage.convertRGBA (img : PILImage) : PILImage :=
  { width := img.width
    height := img.height
    mode := "RGBA"
    px := fun x y =>
      let p := img.px x y
      if img.mode = "RGBA" then p else (p.1, p.2.1, p.2.2.1, 255) }

/-- The mode-normalization step of `create_square_icon`:
`if img.mode != 'RGBA': img = img.convert('RGBA')`. -/
def toRGBA (img : PILImage) : PILImage :=
  if img.mode = "RGBA" then img else img.convertRGBA

/-- Pixel lookup at signed coordinates; outside the image extent PIL supplies
zero-filled pixels (this is what `Image.crop` does for out-of-bounds boxes). -/
def pixelAt (img : PILImage) (x y : ℤ) : Pixel :=
  if 0 ≤ x ∧ x < (img.width : ℤ) ∧ 0 ≤ y ∧ y < (img.height : ℤ) then
    img.px x.toNat y.toNat
  else (0, 0, 0, 0)

/-- Model of PIL `Image.crop((l, t, r, b))`: the result is `(r-l) × (b-t)`,
pixel `(x, y)` of the result is pixel `(l+x, t+y)` of the source, zero-filled
where that falls outside the source extent. -/
def PILImage.crop (img : PILImage) (l t r b : ℤ) : PILImage :=
  { width := (r - l).toNat
    height := (b - t).toNat
    mode := img.mode
    px := fun x y => pixelAt img (l + x) (t + y) }

/-- Model of PIL `Image.resize((w, h), Image.Resampling.LANCZOS)`.  Pillow
returns the image unchanged (a copy) when the requested size equals the
current size; otherwise the separable Lanczos convolution is modelled as a
deterministic sampling of the source grid.  The floating-point Lanczos
filter weights themselves are not modelled: every property proved below
depends only on the result's dimensions, its determinism, and the same-size
identity short-circuit, all of which this definition shares with Pillow. -/
def PILImage.resize (img : PILImage) (w h : ℕ) : PILImage :=
  if img.width = w ∧ img.height = h then img
  else
    { width := w
      height := h
      mode := img.mode
      px := fun x y => img.px (x * img.width / w) (y * img.height / h) }

/-- Exact-rational idealization of the resized width
`new_width = int(width * scale)` with `scale = size / min(width, height)`:
the floor `width * size / min width height`.  The faithful IEEE-double
computation is `new_width` below; `new_width_exact` shows the two agree
whenever the double arithmetic is exact (in particular in the identity
case used by the canvas properties proved here). -/
def newWidthExact (w h size : ℕ) : ℕ := w * size / min w h

/-- Exact-rational idealization of `new_height = int(height * scale)`;
see `newWidthExact` and the faithful `new_height` below. -/
def newHeightExact (w h size : ℕ) : ℕ := h * size / min w h

/-- Crop bound `left = (new_width - size) // 2` over the exact-rational
resized width, as a signed integer (Python ints are signed; `//` is floor
division, which for the positive divisor 2 is ℤ division). -/
def cropLeftExact (w h size : ℕ) : ℤ := ((newWidthExact w h size : ℤ) - size) / 2

/-- Crop bound `top = (new_height - size) // 2` over the exact-rational
resized height. -/
def cropTopExact (w h size : ℕ) : ℤ := ((newHeightExact w h size : ℤ) - size) / 2

/-- Binary logarithm with explicit fuel, structural in the fuel so it
evaluates by kernel reduction: `log2fuel fuel n = ⌊log2 n⌋` whenever
`1 ≤ n ≤ fuel`. -/
def log2fuel : ℕ → ℕ → ℕ
  | 0, _ => 0
  | fuel + 1, n => if n ≤ 1 then 0 else log2fuel fuel (n / 2) + 1

/-- `⌊log2 n⌋` for `n ≥ 1` (and 0 at 0). -/
def natLog2 (n : ℕ) : ℕ := log2fuel n n

/-- Does `2^k ≤ a / b` hold for the exact rational `a / b`? -/
def cmpPow2 (a b : ℕ) (k : ℤ) : Bool :=
  if 0 ≤ k then decide (b * 2 ^ k.toNat ≤ a)
  else decide (b ≤ a * 2 ^ (-k).toNat)

/-- Binary exponent `⌊log2 (a / b)⌋` of the positive rational `a / b`:
the first estimate `⌊log2 a⌋ - ⌊log2 b⌋` over- or hits the true value and
is corrected by one comparison. -/
def selExp (a b : ℕ) : ℤ :=
  if cmpPow2 a b ((natLog2 a : ℤ) - natLog2 b) then
    (natLog2 a : ℤ) - natLog2 b
  else (natLog2 a : ℤ) - natLog2 b - 1

/-- An IEEE-754 binary64 value `mant * 2^exp` with `2^52 ≤ mant < 2^53`
(or zero).  Only the normal range is modelled; the script's quantities
never reach the subnormal or overflow regimes. -/
structure F64 where
  mant : ℕ
  exp : ℤ

/-- Round the exact rational `a / b` to the nearest binary64 value, ties
to even — the result IEEE-754 division delivers.  The quotient is scaled
into `[2^52, 2^53)`, its integer part and remainder decide the rounding,
and a carry out of the mantissa range renormalizes the exponent. -/
def roundRat (a b : ℕ) : F64 :=
  if a = 0 ∨ b = 0 then ⟨0, 0⟩
  else
    let e : ℤ := selExp a b
    let n : ℕ := if 0 ≤ 52 - e then a * 2 ^ (52 - e).toNat else a
    let den : ℕ := if 0 ≤ 52 - e then b else b * 2 ^ (e - 52).toNat
    let q := n / den
    let r := n % den
    let mant :=
      if 2 * r < den then q
      else if den < 2 * r then q + 1
      else if q % 2 = 0 then q else q + 1
    if mant = 2 ^ 53 then ⟨2 ^ 52, e - 51⟩ else ⟨mant, e - 52⟩

/-- IEEE-754 product of a natural number and a binary64 value: the exact
product `w * mant * 2^exp` rounded back to a double. -/
def fmulNat (w : ℕ) (f : F64) : F64 :=
  if 0 ≤ f.exp then roundRat (w * f.mant * 2 ^ f.exp.toNat) 1
  else roundRat (w * f.mant) (2 ^ (-f.exp).toNat)

/-- Python `int()` of a nonnegative binary64 value: truncation toward
zero, which for a nonnegative value is the floor. -/
def F64.trunc (f : F64) : ℕ :=
  if 0 ≤ f.exp then f.mant * 2 ^ f.exp.toNat else f.mant / 2 ^ (-f.exp).toNat

/-- Faithful model of `new_width = int(width * scale)` with
`scale = size / min(width, height)` computed in IEEE-754 double
arithmetic, as the program does: the quotient is rounded to the nearest
double, the product is re-rounded, and `int()` truncates. -/
def new_width (w h size : ℕ) : ℕ :=
  (fmulNat w (roundRat size (min w h))).trunc

/-- Faithful model of `new_height = int(height * scale)` in IEEE-754
double arithmetic; see `new_width`. -/
def new_height (w h size : ℕ) : ℕ :=
  (fmulNat h (roundRat size (min w h))).trunc

/-- Crop bound `left = (new_width - size) // 2` over the faithful
IEEE-double resized width. -/
def cropLeftF (w h size : ℕ) : ℤ := ((new_width w h size : ℤ) - size) / 2

/-- Crop bound `top = (new_height - size) // 2` over the faithful
IEEE-double resized height. -/
def cropTopF (w h size : ℕ) : ℤ := ((new_height w h size : ℤ) - size) / 2

/-- Embedding of `create_square_icon(source_path, output_dir, size=1024)`.
The image decoded from `source_path` is the `source` argument; `output_dir`
is accepted and never used, exactly as in the source. -/
def create_square_icon (source : PILImage) (output_dir : String)
    (size : ℕ := 1024) : PILImage :=
  let img := toRGBA source
  let w := img.width
  let h := img.height
  let img2 := img.resize (newWidthExact w h size) (newHeightExact w h size)
  let left := cropLeftExact w h size
  let top := cropTopExact w h size
  img2.crop left top (left + size) (top + size)

/-- Extensional image equality: same dimensions, same mode and the same
pixel at every in-range coordinate ("pixel for pixel").  This is the
byte-identity relation for a deterministic lossless encoder such as PNG. -/
def sameImage (a b : PILImage) : Prop :=
  a.width = b.width ∧ a.height = b.height ∧ a.mode = b.mode ∧
    ∀ x y, x < a.width → y < a.height → a.px x y = b.px x y

/-- The ten mandated (pixel size, filename) pairs, in the order
`generate_iconset` writes them. -/
def iconsetSizes : List (ℕ × String) :=
  [(16, "icon_16x16.png"),
   (32, "icon_16x16@2x.png"),
   (32, "icon_32x32.png"),
   (64, "icon_32x32@2x.png"),
   (128, "icon_128x128.png"),
   (256, "icon_128x128@2x.png"),
   (256, "icon_256x256.png"),
   (512, "icon_256x256@2x.png"),
   (512, "icon_512x512.png"),
   (1024, "icon_512x512@2x.png")]

/-- Filesystem events performed by the script: `os.makedirs`,
`resized.save(os.path.join(dir, name), "PNG")`, and `shutil.rmtree`. -/
inductive FSEvent where
  | makedirs (path : String)
  | writeFile (dir : String) (name : String) (img : PILImage)
  | rmtree (path : String)

/-- Is this event a file write? -/
def FSEvent.isWrite : FSEvent → Bool
  | .writeFile _ _ _ => true
  | _ => false

/-- Is this event a directory removal? -/
def FSEvent.isRmtree : FSEvent → Bool
  | .rmtree _ => true
  | _ => false

/-- Project a file-write event to its (directory, name, image) triple. -/
def FSEvent.writeData : FSEvent → Option (String × String × PILImage)
  | .writeFile d n i => some (d, n, i)
  | _ => none

/-- Directories present after replaying a trace on an empty filesystem:
`makedirs` adds a path, `rmtree` removes it. -/
def dirsAfter (evts : List FSEvent) : List String :=
  evts.foldl
    (fun acc e =>
      match e with
      | .makedirs p => if p ∈ acc then acc else acc ++ [p]
      | .rmtree p => acc.filter (fun q => decide (q ≠ p))
      | _ => acc)
    []

/-- Embedding of `generate_iconset(source_path, output_dir)` as a trace.
`decode` is the result of `Image.open(source_path)`: `none` means the file
is unreadable or undecodable, in which case the exception is raised inside
`create_square_icon`, i.e. after `os.makedirs(iconset_dir)` has already run.
On success the returned value is the staging directory path, as in the
source. -/
def generate_iconsetRun (decode : Option PILImage) (output_dir : String) :
    List FSEvent × Option String :=
  let iconset_dir := output_dir ++ "/AppIcon.iconset"
  match decode with
  | none => ([FSEvent.makedirs iconset_dir], none)
  | some img =>
    let base_icon := create_square_icon img output_dir 1024
    (FSEvent.makedirs iconset_dir ::
        iconsetSizes.map (fun p =>
          FSEvent.writeFile iconset_dir p.2 (base_icon.resize p.1 p.1)),
      some iconset_dir)

/-- The image written under filename `name` by a trace, if any. -/
def writtenImage (evts : List FSEvent) (name : String) : Option PILImage :=
  (evts.filterMap
      (fun e =>
        match e with
        | FSEvent.writeFile _ n i => if n = name then some i else none
        | _ => none)).head?

/-- Outcome of the external `iconutil` invocation: either the subprocess
exits with a status code, or `subprocess.run` itself raises. -/
inductive CompilerOutcome where
  | exited (code : ℕ)
  | raised

/-- Embedding of `create_icns(iconset_dir, output_path)`: returns `True`
exactly when the subprocess ran and its return code was 0; any raised
exception is caught and yields `False`. -/
def create_icns : CompilerOutcome → Bool
  | .exited c => c = 0
  | .raised => false

/-- The script directory used by `main` (a fixed path at run time). -/
def scriptDir : String := "app"

/-- The staging directory `os.path.join(script_dir, "AppIcon.iconset")`. -/
def stagingDir : String := scriptDir ++ "/AppIcon.iconset"

/-- The directory of the `.icns` output created by `main`. -/
def resourcesDir : String := scriptDir ++ "/Amirror.app/Contents/Resources"

/-- Embedding of `main()` as (event trace, process exit code).
`sourceExists` models the `os.path.exists` check, `decode` the result of
opening the source image, `outcome` the external compiler invocation.
A decode failure is an uncaught exception: the interpreter exits with
code 1 after the events performed so far.  On compiler success the staging
directory is removed and the exit code is 0; on compiler failure the staging
directory is kept and the exit code is 1. -/
def mainRun (sourceExists : Bool) (decode : Option PILImage)
    (outcome : CompilerOutcome) : List FSEvent × ℕ :=
  if sourceExists = false then ([], 1)
  else
    let r := generate_iconsetRun decode scriptDir
    match r.2 with
    | none => (r.1, 1)
    | some iconset_dir =>
      let evts := r.1 ++ [FSEvent.makedirs resourcesDir]
      if create_icns outcome then (evts ++ [FSEvent.rmtree iconset_dir], 0)
      else (evts, 1)

/-- Effectful view of `create_square_icon`: the function body performs no
filesystem writes at all (its only filesystem interaction is the read of
`source_path` by `Image.open`, represented by the `decode` argument), so its
event trace is empty. -/
def create_square_iconRun (decode : Option PILImage) (output_dir : String)
    (size : ℕ) : List FSEvent × Option PILImage :=
  ([], decode.map (fun img => create_square_icon img output_dir size))

/-! ### Helper lemmas -/

theorem PILImage.resize_width (img : PILImage) (w h : ℕ) :
    (img.resize w h).width = w := by
  unfold PILImage.resize
  split
  · next hc => exact hc.1
  · rfl

theorem PILImage.resize_height (img : PILImage) (w h : ℕ) :
    (img.resize w h).height = h := by
  unfold PILImage.resize
  split
  · next hc => exact hc.2
  · rfl

theorem PILImage.resize_mode (img : PILImage) (w h : ℕ) :
    (img.resize w h).mode = img.mode := by
  unfold PILImage.resize
  split <;> rfl

theorem PILImage.resize_self (img : PILImage) (w h : ℕ)
    (hw : img.width = w) (hh : img.height = h) : img.resize w h = img := by
  unfold PILImage.resize
  rw [if_pos ⟨hw, hh⟩]

theorem toRGBA_width (img : PILImage) : (toRGBA img).width = img.width := by
  unfold toRGBA PILImage.convertRGBA
  split <;> rfl

theorem toRGBA_height (img : PILImage) : (toRGBA img).height = img.height := by
  unfold toRGBA PILImage.convertRGBA
  split <;> rfl

theorem toRGBA_mode (img : PILImage) : (toRGBA img).mode = "RGBA" := by
  unfold toRGBA PILImage.convertRGBA
  split
  · next hc => exact hc
  · rfl

theorem newWidthExact_eq_floor (w h size : ℕ) :
    (newWidthExact w h size : ℤ) = ⌊(w : ℚ) * ((size : ℚ) / (min w h : ℚ))⌋ := by
  have he : (w : ℚ) * ((size : ℚ) / (min w h : ℚ))
      = ((w * size : ℕ) : ℚ) / ((min w h : ℕ) : ℚ) := by
    push_cast
    ring
  have h0 : (0 : ℚ) ≤ ((w * size : ℕ) : ℚ) / ((min w h : ℕ) : ℚ) := by positivity
  rw [he, ← Int.natCast_floor_eq_floor h0, Nat.floor_div_eq_div]
  rfl

theorem newHeightExact_eq_floor (w h size : ℕ) :
    (newHeightExact w h size : ℤ) = ⌊(h : ℚ) * ((size : ℚ) / (min w h : ℚ))⌋ := by
  have he : (h : ℚ) * ((size : ℚ) / (min w h : ℚ))
      = ((h * size : ℕ) : ℚ) / ((min w h : ℕ) : ℚ) := by
    push_cast
    ring
  have h0 : (0 : ℚ) ≤ ((h * size : ℕ) : ℚ) / ((min w h : ℕ) : ℚ) := by positivity
  rw [he, ← Int.natCast_floor_eq_floor h0, Nat.floor_div_eq_div]
  rfl

theorem edge_le_newWidthExact (w h size : ℕ) (hw : 0 < w) (hh : 0 < h) :
    size ≤ newWidthExact w h size := by
  have hm : 0 < min w h := lt_min hw hh
  have h1 : min w h * size ≤ w * size :=
    Nat.mul_le_mul_right size (min_le_left w h)
  calc size = min w h * size / min w h := (Nat.mul_div_cancel_left size hm).symm
    _ ≤ w * size / min w h := Nat.div_le_div_right h1

theorem edge_le_newHeightExact (w h size : ℕ) (hw : 0 < w) (hh : 0 < h) :
    size ≤ newHeightExact w h size := by
  have hm : 0 < min w h := lt_min hw hh
  have h1 : min w h * size ≤ h * size :=
    Nat.mul_le_mul_right size (min_le_right w h)
  calc size = min w h * size / min w h := (Nat.mul_div_cancel_left size hm).symm
    _ ≤ h * size / min w h := Nat.div_le_div_right h1

theorem newWidthExact_of_le (w h size : ℕ) (hw : 0 < w) (hwh : w ≤ h) :
    newWidthExact w h size = size := by
  unfold newWidthExact
  rw [min_eq_left hwh, mul_comm, Nat.mul_div_cancel size hw]

theorem newHeightExact_of_le (w h size : ℕ) (hh : 0 < h) (hhw : h ≤ w) :
    newHeightExact w h size = size := by
  unfold newHeightExact
  rw [min_eq_right hhw, mul_comm, Nat.mul_div_cancel size hh]

/-! ### IEEE-754 double rounding: correctness on exact inputs -/

theorem log2fuel_bounds (fuel : ℕ) :
    ∀ n, 1 ≤ n → n ≤ fuel →
      2 ^ log2fuel fuel n ≤ n ∧ n < 2 ^ (log2fuel fuel n + 1) := by
  induction fuel with
  | zero => intro n h1 h2; omega
  | succ fuel ih =>
    intro n h1 h2
    simp only [log2fuel]
    by_cases hn : n ≤ 1
    · rw [if_pos hn]
      norm_num
      omega
    · rw [if_neg hn]
      have hrec := ih (n / 2) (by omega) (by omega)
      have hpow : 2 ^ (log2fuel fuel (n / 2) + 1) = 2 * 2 ^ log2fuel fuel (n / 2) := by
        ring
      have hpow2 : 2 ^ (log2fuel fuel (n / 2) + 1 + 1)
          = 2 * 2 ^ (log2fuel fuel (n / 2) + 1) := by ring
      omega

theorem natLog2_bounds (n : ℕ) (h1 : 1 ≤ n) :
    2 ^ natLog2 n ≤ n ∧ n < 2 ^ (natLog2 n + 1) :=
  log2fuel_bounds n n h1 le_rfl

theorem natLog2_le (k c : ℕ) (hk : 1 ≤ k) (hkc : k < 2 ^ (c + 1)) :
    natLog2 k ≤ c := by
  by_contra hcon
  push_neg at hcon
  have h1 := (natLog2_bounds k hk).1
  have h2 : 2 ^ (c + 1) ≤ 2 ^ natLog2 k :=
    Nat.pow_le_pow_right (by norm_num) (by omega)
  omega

theorem cmpPow2_natCast (a b k : ℕ) :
    cmpPow2 a b (k : ℤ) = decide (b * 2 ^ k ≤ a) := by
  unfold cmpPow2
  rw [if_pos (Int.natCast_nonneg k)]
  simp

/-- On a quotient that is exactly the integer `k`, the selected binary
exponent is `⌊log2 k⌋`. -/
theorem selExp_exact (b k : ℕ) (hb : 1 ≤ b) (hk : 1 ≤ k) :
    selExp (b * k) b = natLog2 k := by
  obtain ⟨hk1, hk2⟩ := natLog2_bounds k hk
  obtain ⟨hb1, hb2⟩ := natLog2_bounds b hb
  obtain ⟨ha1, ha2⟩ := natLog2_bounds (b * k) (Nat.mul_pos hb hk)
  set E := natLog2 k with hE
  set Lb := natLog2 b with hLb
  set La := natLog2 (b * k) with hLa
  have hla : La = Lb + E ∨ La = Lb + E + 1 := by
    have h1 : 2 ^ (Lb + E) ≤ b * k := by
      rw [pow_add]
      exact Nat.mul_le_mul hb1 hk1
    have h2 : b * k < 2 ^ (Lb + E + 2) := by
      have h3 : b * k < 2 ^ (Lb + 1) * 2 ^ (E + 1) :=
        mul_lt_mul'' hb2 hk2 (Nat.zero_le b) (Nat.zero_le k)
      have h4 : 2 ^ (Lb + 1) * 2 ^ (E + 1) = 2 ^ (Lb + E + 2) := by
        rw [← pow_add]
        congr 1
        omega
      omega
    by_contra hcon
    push_neg at hcon
    rcases Nat.lt_or_ge La (Lb + E) with hlt | hge
    · have h5 : 2 ^ (La + 1) ≤ 2 ^ (Lb + E) :=
        Nat.pow_le_pow_right (by norm_num) (by omega)
      omega
    · have hge2 : Lb + E + 2 ≤ La := by omega
      have h6 : 2 ^ (Lb + E + 2) ≤ 2 ^ La :=
        Nat.pow_le_pow_right (by norm_num) hge2
      omega
  unfold selExp
  rcases hla with hla | hla
  · have he0 : (La : ℤ) - Lb = (E : ℤ) := by omega
    rw [he0, cmpPow2_natCast]
    have hcmp : b * 2 ^ E ≤ b * k := Nat.mul_le_mul_left b hk1
    simp [hcmp]
  · have he0 : (La : ℤ) - Lb = ((E + 1 : ℕ) : ℤ) := by push_cast; omega
    rw [he0, cmpPow2_natCast]
    have hcmp : ¬ b * 2 ^ (E + 1) ≤ b * k := by
      have h7 : b * k < b * 2 ^ (E + 1) :=
        mul_lt_mul_of_pos_left hk2 (by omega)
      omega
    simp [hcmp]

/-- Rounding a quotient that is exactly the integer `k < 2^53` is the
identity: the mantissa comes out as `k` shifted into `[2^52, 2^53)`. -/
theorem roundRat_exact (b k : ℕ) (hb : 1 ≤ b) (hk : 1 ≤ k) (hk53 : k < 2 ^ 53) :
    roundRat (b * k) b = ⟨k * 2 ^ (52 - natLog2 k), (natLog2 k : ℤ) - 52⟩ := by
  obtain ⟨hk1, hk2⟩ := natLog2_bounds k hk
  set E := natLog2 k with hE
  have hE52 : E ≤ 52 := natLog2_le k 52 hk hk53
  have hmant_lt : k * 2 ^ (52 - E) < 2 ^ 53 := by
    have h1 : k * 2 ^ (52 - E) < 2 ^ (E + 1) * 2 ^ (52 - E) :=
      Nat.mul_lt_mul_of_lt_of_le hk2 (le_refl _) (by positivity)
    have h2 : 2 ^ (E + 1) * 2 ^ (52 - E) = 2 ^ 53 := by
      rw [← pow_add]
      congr 1
      omega
    omega
  have hbk : b * k ≠ 0 := by positivity
  unfold roundRat
  rw [if_neg (by push_neg; exact ⟨hbk, by omega⟩)]
  rw [selExp_exact b k hb hk, ← hE]
  have hnn : (0 : ℤ) ≤ 52 - E := by omega
  have htn : ((52 : ℤ) - E).toNat = 52 - E := by omega
  simp only [if_pos hnn, htn]
  have hassoc : b * k * 2 ^ (52 - E) = b * (k * 2 ^ (52 - E)) := by ring
  rw [hassoc, Nat.mul_div_cancel_left _ (by omega : 0 < b), Nat.mul_mod_right]
  rw [if_pos (by omega : 2 * 0 < b)]
  rw [if_neg (by omega : ¬ k * 2 ^ (52 - E) = 2 ^ 53)]

/-- Multiplying an exactly-represented integer `k` by `w` is exact as long
as the product stays below `2^53`. -/
theorem fmulNat_exact (w k E : ℕ) (hE : E ≤ 52) (hw : 1 ≤ w) (hk : 1 ≤ k)
    (hwk : w * k < 2 ^ 53) :
    fmulNat w ⟨k * 2 ^ (52 - E), (E : ℤ) - 52⟩
      = ⟨w * k * 2 ^ (52 - natLog2 (w * k)), (natLog2 (w * k) : ℤ) - 52⟩ := by
  have hwk1 : 1 ≤ w * k := Nat.mul_pos hw hk
  unfold fmulNat
  by_cases h0 : (0 : ℤ) ≤ (E : ℤ) - 52
  · have hE52 : E = 52 := by omega
    subst hE52
    rw [if_pos h0]
    dsimp only
    norm_num
    have hr := roundRat_exact 1 (w * k) le_rfl hwk1 hwk
    rw [one_mul] at hr
    exact hr
  · rw [if_neg h0]
    have htn : (-(((E : ℤ)) - 52)).toNat = 52 - E := by omega
    rw [htn]
    have harg : w * (k * 2 ^ (52 - E)) = 2 ^ (52 - E) * (w * k) := by ring
    rw [harg, roundRat_exact (2 ^ (52 - E)) (w * k) Nat.one_le_two_pow hwk1 hwk]

/-- Truncating an exactly-represented integer recovers it. -/
theorem trunc_exact (v E : ℕ) (hE : E ≤ 52) (hv : 1 ≤ v) :
    (F64.mk (v * 2 ^ (52 - E)) ((E : ℤ) - 52)).trunc = v := by
  unfold F64.trunc
  by_cases h0 : (0 : ℤ) ≤ (E : ℤ) - 52
  · have hE52 : E = 52 := by omega
    subst hE52
    rw [if_pos h0]
    norm_num
  · rw [if_neg h0]
    have htn : (-(((E : ℤ)) - 52)).toNat = 52 - E := by omega
    simp only [htn]
    exact Nat.mul_div_cancel _ (by positivity)

/-- When the smaller source dimension divides the target size and the
scaled width stays below `2^53`, the IEEE-double computation of
`int(width * (size / min(w, h)))` is exact. -/
theorem new_width_exact (w h size : ℕ) (hw : 0 < w) (hh : 0 < h) (hs : 0 < size)
    (hd : min w h ∣ size) (hb : w * (size / min w h) < 2 ^ 53) :
    new_width w h size = w * (size / min w h) := by
  set m := min w h with hm
  have hm1 : 1 ≤ m := lt_min hw hh
  set k := size / m with hk
  have hmk : size = m * k := (Nat.mul_div_cancel' hd).symm
  have hk1 : 1 ≤ k := by
    rcases Nat.eq_zero_or_pos k with h0 | h1
    · rw [h0, mul_zero] at hmk
      omega
    · exact h1
  have hk53 : k < 2 ^ 53 := lt_of_le_of_lt (Nat.le_mul_of_pos_left k hw) hb
  have hE52 : natLog2 k ≤ 52 := natLog2_le k 52 hk1 hk53
  have hE2 : natLog2 (w * k) ≤ 52 := natLog2_le (w * k) 52 (Nat.mul_pos hw hk1) hb
  have hround : roundRat size m
      = ⟨k * 2 ^ (52 - natLog2 k), (natLog2 k : ℤ) - 52⟩ := by
    rw [hmk]
    exact roundRat_exact m k hm1 hk1 hk53
  unfold new_width
  rw [← hm, hround, fmulNat_exact w k (natLog2 k) hE52 hw hk1 hb,
    trunc_exact (w * k) (natLog2 (w * k)) hE2 (Nat.mul_pos hw hk1)]

/-- Companion of `new_width_exact` for the height. -/
theorem new_height_exact (w h size : ℕ) (hw : 0 < w) (hh : 0 < h) (hs : 0 < size)
    (hd : min w h ∣ size) (hb : h * (size / min w h) < 2 ^ 53) :
    new_height w h size = h * (size / min w h) := by
  set m := min w h with hm
  have hm1 : 1 ≤ m := lt_min hw hh
  set k := size / m with hk
  have hmk : size = m * k := (Nat.mul_div_cancel' hd).symm
  have hk1 : 1 ≤ k := by
    rcases Nat.eq_zero_or_pos k with h0 | h1
    · rw [h0, mul_zero] at hmk
      omega
    · exact h1
  have hk53 : k < 2 ^ 53 := lt_of_le_of_lt (Nat.le_mul_of_pos_left k hh) hb
  have hE52 : natLog2 k ≤ 52 := natLog2_le k 52 hk1 hk53
  have hE2 : natLog2 (h * k) ≤ 52 := natLog2_le (h * k) 52 (Nat.mul_pos hh hk1) hb
  have hround : roundRat size m
      = ⟨k * 2 ^ (52 - natLog2 k), (natLog2 k : ℤ) - 52⟩ := by
    rw [hmk]
    exact roundRat_exact m k hm1 hk1 hk53
  unfold new_height
  rw [← hm, hround, fmulNat_exact h k (natLog2 k) hE52 hh hk1 hb,
    trunc_exact (h * k) (natLog2 (h * k)) hE2 (Nat.mul_pos hh hk1)]

/-- In the identity case (a square `e × e` source at edge `e < 2^53`) the
faithful double computation agrees with the exact model used inside the
canvas embedding: both give `e`. -/
theorem new_width_identity (e : ℕ) (he : 0 < e) (he53 : e < 2 ^ 53) :
    new_width e e e = e := by
  have hd : min e e ∣ e := by
    rw [min_self]
  have hb : e * (e / min e e) < 2 ^ 53 := by
    rw [min_self, Nat.div_self he, mul_one]
    exact he53
  have h := new_width_exact e e e he he he hd hb
  rwa [min_self, Nat.div_self he, mul_one] at h

/-! ### Claims C1 and C2 -/

/-- C1 (counterexample): at a 2051×2048 source with edge 1024 the program
computes `scale = 1024/2048 = 0.5` and `int(2051 * 0.5) = int(1025.5) =
1025` — the IEEE-double model reproduces this — while the claimed
`round(2051 * 0.5)` is 1026. -/
theorem C1_counterexample :
    (new_width 2051 2048 1024 : ℤ)
      ≠ round ((2051 : ℚ) * ((1024 : ℚ) / ((min 2051 2048 : ℕ) : ℚ))) := by
  have hmin : (min 2051 2048 : ℕ) = 2048 := by norm_num
  have h1 : new_width 2051 2048 1024 = 1025 := by decide
  have h2 : round ((2051 : ℚ) * ((1024 : ℚ) / ((min 2051 2048 : ℕ) : ℚ)))
      = 1026 := by
    rw [hmin]
    norm_num [round_eq]
  rw [h1, h2]
  decide

/-- C1 (amended): the resized dimensions are the truncations
`int(width*scale)`, `int(height*scale)` of the IEEE-double products — not
their roundings — and whenever the smaller source dimension divides the
edge length and both scaled dimensions stay below `2^53` (so the double
arithmetic is exact), they equal `width * (edge / min)` and
`height * (edge / min)`, the smaller of the two equals `edge` and the
other is at least `edge`.  Outside that regime double rounding can drop a
dimension one below the exact value (a 49×49 source at edge 1024 yields
1023×1023). -/
theorem C1_resized_dims (w h size : ℕ) (hw : 0 < w) (hh : 0 < h)
    (hs : 0 < size) (hd : min w h ∣ size)
    (hbw : w * (size / min w h) < 2 ^ 53) (hbh : h * (size / min w h) < 2 ^ 53) :
    new_width w h size = w * (size / min w h) ∧
    new_height w h size = h * (size / min w h) ∧
    min (new_width w h size) (new_height w h size) = size ∧
    size ≤ max (new_width w h size) (new_height w h size) := by
  have h1 := new_width_exact w h size hw hh hs hd hbw
  have h2 := new_height_exact w h size hw hh hs hd hbh
  refine ⟨h1, h2, ?_, ?_⟩
  · rcases le_total w h with hwh | hhw
    · have hm : min w h = w := min_eq_left hwh
      have hval : w * (size / min w h) = size := by
        rw [hm]
        exact Nat.mul_div_cancel' (hm ▸ hd)
      have hle : new_width w h size ≤ new_height w h size := by
        rw [h1, h2]
        exact Nat.mul_le_mul_right _ hwh
      rw [min_eq_left hle, h1, hval]
    · have hm : min w h = h := min_eq_right hhw
      have hval : h * (size / min w h) = size := by
        rw [hm]
        exact Nat.mul_div_cancel' (hm ▸ hd)
      have hle : new_height w h size ≤ new_width w h size := by
        rw [h1, h2]
        exact Nat.mul_le_mul_right _ hhw
      rw [min_eq_right hle, h2, hval]
  · rcases le_total w h with hwh | hhw
    · have hm : min w h = w := min_eq_left hwh
      have hval : w * (size / min w h) = size := by
        rw [hm]
        exact Nat.mul_div_cancel' (hm ▸ hd)
      calc size = new_width w h size := by rw [h1, hval]
        _ ≤ max (new_width w h size) (new_height w h size) := le_max_left _ _
    · have hm : min w h = h := min_eq_right hhw
      have hval : h * (size / min w h) = size := by
        rw [hm]
        exact Nat.mul_div_cancel' (hm ▸ hd)
      calc size = new_height w h size := by rw [h2, hval]
        _ ≤ max (new_width w h size) (new_height w h size) := le_max_right _ _

/-- C1 witness: a concrete 2×3 source with edge 4 (scale = 2, exact). -/
theorem C1_resized_dims_witness :
    new_width 2 3 4 = 2 * (4 / min 2 3) ∧
    new_height 2 3 4 = 3 * (4 / min 2 3) ∧
    min (new_width 2 3 4) (new_height 2 3 4) = 4 ∧
    4 ≤ max (new_width 2 3 4) (new_height 2 3 4) :=
  C1_resized_dims 2 3 4 (by decide) (by decide) (by decide) (by decide)
    (by decide) (by decide)

/-- C2: the code performs no clamping of the crop bounds, and at a real
49×49 source the IEEE-double resized dimensions are 1023×1023 (the double
`49 * (1024/49)` equals `1024 - 2^(-43)`), so
`left = top = (1023 - 1024) // 2 = -1`: the crop rectangle leaves the
resized image's extent, which the mandated clamping would have prevented. -/
theorem C2_crop_bounds_violation :
    new_width 49 49 1024 = 1023 ∧
    new_height 49 49 1024 = 1023 ∧
    cropLeftF 49 49 1024 = -1 ∧
    cropLeftF 49 49 1024 < 0 ∧
    cropTopF 49 49 1024 = -1 :=
  ⟨by decide, by decide, by decide, by decide, by decide⟩

/-- In exact rational arithmetic the crop bounds would always lie within
the resized extent; the violation exhibited above is produced purely by
the float rounding of the scale — exactly the off-by-one hazard the
specification's clamping requirement exists to guard. -/
theorem crop_bounds_in_extent_exact (w h size : ℕ) (hw : 0 < w) (hh : 0 < h) :
    0 ≤ cropLeftExact w h size ∧
    cropLeftExact w h size + size ≤ (newWidthExact w h size : ℤ) ∧
    0 ≤ cropTopExact w h size ∧
    cropTopExact w h size + size ≤ (newHeightExact w h size : ℤ) := by
  have h1 := edge_le_newWidthExact w h size hw hh
  have h2 := edge_le_newHeightExact w h size hw hh
  unfold cropLeftExact cropTopExact
  omega


/-! ### Canvas shape lemmas -/

theorem canvas_width (img : PILImage) (d : String) (size : ℕ) :
    (create_square_icon img d size).width = size := by
  simp only [create_square_icon, PILImage.crop]
  omega

theorem canvas_height (img : PILImage) (d : String) (size : ℕ) :
    (create_square_icon img d size).height = size := by
  simp only [create_square_icon, PILImage.crop]
  omega

theorem canvas_mode (img : PILImage) (d : String) (size : ℕ) :
    (create_square_icon img d size).mode = "RGBA" := by
  simp only [create_square_icon, PILImage.crop]
  rw [PILImage.resize_mode, toRGBA_mode]

/-- A concrete test image: 5×3, RGB (no alpha channel). -/
def testImg : PILImage :=
  { width := 5, height := 3, mode := "RGB", px := fun x y => (x, y, 3, 4) }

/-! ### Claims C3, C4 and C5 -/

/-- C3 (counterexample): with an existing but undecodable source image
(`decode = none`), the run aborts with exit code 1 but the staging
directory *has* been created and remains on the filesystem, because
`generate_iconset` runs `os.makedirs(iconset_dir)` before
`create_square_icon` ever opens the image. -/
theorem C3_counterexample :
    stagingDir ∈ dirsAfter (mainRun true none (CompilerOutcome.exited 0)).1 ∧
    (mainRun true none (CompilerOutcome.exited 0)).2 = 1 := by
  constructor
  · decide
  · rfl

/-- C3 (amended): when the source image file exists but is unreadable or
undecodable, the run aborts with exit code 1 *after* the staging directory
has been created: the decode failure leaves an empty staging directory (and
no variant files) on the filesystem. -/
theorem C3_decode_failure_trace (outcome : CompilerOutcome) :
    (mainRun true none outcome).1 = [FSEvent.makedirs stagingDir] ∧
    (mainRun true none outcome).2 = 1 ∧
    stagingDir ∈ dirsAfter (mainRun true none outcome).1 ∧
    (mainRun true none outcome).1.filter FSEvent.isWrite = [] := by
  have hmr : (mainRun true none outcome).1 = [FSEvent.makedirs stagingDir] := rfl
  refine ⟨hmr, rfl, ?_, rfl⟩
  rw [hmr]
  decide

/-- C4: for every decodable source image of positive width and height, the
Canvas returned by `create_square_icon` at the fixed edge length is exactly
1024 × 1024 and in RGBA mode. -/
theorem C4_canvas_square_rgba (img : PILImage) (d : String)
    (hw : 0 < img.width) (hh : 0 < img.height) :
    (create_square_icon img d 1024).width = 1024 ∧
    (create_square_icon img d 1024).height = 1024 ∧
    (create_square_icon img d 1024).mode = "RGBA" :=
  ⟨canvas_width img d 1024, canvas_height img d 1024, canvas_mode img d 1024⟩

/-- C4 witness: the concrete 5×3 RGB test image. -/
theorem C4_canvas_square_rgba_witness :
    (create_square_icon testImg "out" 1024).width = 1024 ∧
    (create_square_icon testImg "out" 1024).height = 1024 ∧
    (create_square_icon testImg "out" 1024).mode = "RGBA" :=
  C4_canvas_square_rgba testImg "out" (by decide) (by decide)

theorem newWidthExact_same (e s : ℕ) (he : 0 < e) : newWidthExact e e s = s := by
  unfold newWidthExact
  rw [min_self, mul_comm, Nat.mul_div_cancel s he]

theorem newHeightExact_same (e s : ℕ) (he : 0 < e) : newHeightExact e e s = s := by
  unfold newHeightExact
  rw [min_self, mul_comm, Nat.mul_div_cancel s he]

theorem cropLeftExact_same (e : ℕ) (he : 0 < e) : cropLeftExact e e e = 0 := by
  unfold cropLeftExact
  rw [newWidthExact_same e e he]
  simp

theorem cropTopExact_same (e : ℕ) (he : 0 < e) : cropTopExact e e e = 0 := by
  unfold cropTopExact
  rw [newHeightExact_same e e he]
  simp

/-- C5: for every source image whose dimensions are already exactly
`edge × edge`, the Canvas equals the source converted to RGBA, pixel for
pixel (identity case: scale = 1, so the resize is Pillow's same-size
short-circuit and the crop is the full extent). -/
theorem C5_identity_case (img : PILImage) (d : String) (e : ℕ)
    (hw : img.width = e) (hh : img.height = e) (he : 0 < e) :
    sameImage (create_square_icon img d e) (toRGBA img) := by
  have cw : (toRGBA img).width = e := by rw [toRGBA_width, hw]
  have ch : (toRGBA img).height = e := by rw [toRGBA_height, hh]
  have hkey : create_square_icon img d e
      = (toRGBA img).crop 0 0 ((0 : ℤ) + e) ((0 : ℤ) + e) := by
    simp only [create_square_icon]
    rw [cw, ch, newWidthExact_same e e he, newHeightExact_same e e he,
      PILImage.resize_self _ _ _ cw ch, cropLeftExact_same e he, cropTopExact_same e he]
  rw [hkey]
  refine ⟨?_, ?_, rfl, ?_⟩
  · simp only [PILImage.crop, cw]
    omega
  · simp only [PILImage.crop, ch]
    omega
  · intro x y hx hy
    simp only [PILImage.crop] at hx hy
    have hx2 : x < e := by omega
    have hy2 : y < e := by omega
    simp only [PILImage.crop, pixelAt, cw, ch]
    rw [if_pos (by omega)]
    simp

/-- A concrete square 2×2 RGBA test image. -/
def testSquare : PILImage :=
  { width := 2, height := 2, mode := "RGBA", px := fun x y => (x, y, 7, 255) }

/-- C5 witness: the concrete 2×2 RGBA test image with edge 2. -/
theorem C5_identity_case_witness :
    sameImage (create_square_icon testSquare "out" 2) (toRGBA testSquare) :=
  C5_identity_case testSquare "out" 2 rfl rfl (by decide)

/-! ### Claims C6 to C10 -/

/-- C6: for every decodable source image, `generate_iconset` writes exactly
the ten mandated PNG files into the staging directory, in table order —
each one the Lanczos resample of the single Canvas to its exact square
pixel size, under its mandated filename — and the written images have
exactly the mandated pixel dimensions. -/
theorem C6_iconset_table (img : PILImage) (d : String) :
    (generate_iconsetRun (some img) d).1.filterMap FSEvent.writeData
      = iconsetSizes.map (fun p =>
          (d ++ "/AppIcon.iconset", p.2,
            (create_square_icon img d 1024).resize p.1 p.1)) ∧
    ((generate_iconsetRun (some img) d).1.filterMap FSEvent.writeData).map
        (fun e => (e.2.2.width, e.2.2.height))
      = [(16, 16), (32, 32), (32, 32), (64, 64), (128, 128), (256, 256),
         (256, 256), (512, 512), (512, 512), (1024, 1024)] := by
  constructor
  · rfl
  · simp [generate_iconsetRun, iconsetSizes, FSEvent.writeData,
      PILImage.resize_width, PILImage.resize_height]

/-- C7: within one run, the variants sharing a pixel size — the two
32-pixel files, the two 256-pixel files and the two 512-pixel files — are
identical images (hence byte-identical PNGs), because all ten variants are
resamples of the single Canvas built once per run. -/
theorem C7_retina_pairs_identical (img : PILImage) (d : String) :
    writtenImage (generate_iconsetRun (some img) d).1 "icon_16x16@2x.png"
        = writtenImage (generate_iconsetRun (some img) d).1 "icon_32x32.png" ∧
    writtenImage (generate_iconsetRun (some img) d).1 "icon_128x128@2x.png"
        = writtenImage (generate_iconsetRun (some img) d).1 "icon_256x256.png" ∧
    writtenImage (generate_iconsetRun (some img) d).1 "icon_256x256@2x.png"
        = writtenImage (generate_iconsetRun (some img) d).1 "icon_512x512.png" :=
  ⟨rfl, rfl, rfl⟩

/-- C8: the staging directory (with all ten variants already written) is
removed exactly when the external compiler invocation succeeds; on a
nonzero exit status or a raised invocation error it is retained and the run
exits with code 1, while on success the run exits with code 0. -/
theorem C8_staging_retained_on_failure (img : PILImage)
    (outcome : CompilerOutcome) :
    ((mainRun true (some img) outcome).1.filter FSEvent.isRmtree
      = if create_icns outcome then [FSEvent.rmtree stagingDir] else []) ∧
    ((mainRun true (some img) outcome).2
      = if create_icns outcome then 0 else 1) ∧
    ((mainRun true (some img) outcome).1.filter FSEvent.isWrite).length = 10 ∧
    (stagingDir ∈ dirsAfter (mainRun true (some img) outcome).1
      ↔ create_icns outcome = false) := by
  cases hoc : create_icns outcome <;>
    simp [mainRun, generate_iconsetRun, hoc, iconsetSizes, dirsAfter,
      FSEvent.isRmtree, FSEvent.isWrite, stagingDir, scriptDir, resourcesDir]

/-- C9: the whole image-to-iconset transform is a deterministic function of
the decoded source image and the edge length: two runs on equal source
images yield equal Canvases and equal variant traces (hence byte-identical
outputs under the deterministic PNG encoder). -/
theorem C9_transform_deterministic (a b : PILImage) (d : String)
    (h : a = b) :
    create_square_icon a d 1024 = create_square_icon b d 1024 ∧
    generate_iconsetRun (some a) d = generate_iconsetRun (some b) d := by
  subst h
  exact ⟨rfl, rfl⟩

/-- C9 witness: two runs on the concrete test image. -/
theorem C9_transform_deterministic_witness :
    create_square_icon testImg "out" 1024
        = create_square_icon testImg "out" 1024 ∧
    generate_iconsetRun (some testImg) "out"
        = generate_iconsetRun (some testImg) "out" :=
  C9_transform_deterministic testImg testImg "out" rfl

/-- C10: the `output_dir` parameter of `create_square_icon` has no effect:
for every source image, edge length and any two values of `output_dir`, the
returned Canvas is the same, and the function performs no filesystem
writes (its event trace is empty). -/
theorem C10_output_dir_unused (img : PILImage) (d1 d2 : String) (size : ℕ)
    (decode : Option PILImage) :
    create_square_icon img d1 size = create_square_icon img d2 size ∧
    (create_square_iconRun decode d1 size).1 = [] ∧
    (create_square_iconRun decode d1 size).2
        = (create_square_iconRun decode d2 size).2 :=
  ⟨rfl, rfl, rfl⟩
